import Mathlib

/-! Central Data 2650 driver (`src/mame/drivers/cd2650.cpp`)

A shallow embedding of the two routines of the driver that carry logic:

* `QUICKLOAD_LOAD_MEMBER( cd2650_state, cd2650 )`, embedded as `quickload`;
* `cd2650_state::screen_update`, embedded as `screen_update`.

Conventions.

* Bytes (`uint8_t`) are natural numbers; every theorem below holds for all
  natural numbers and so in particular for all bytes.  No narrowing store
  occurs in either routine except into `mem` (`uint16_t`), which is reduced
  modulo `2^16` explicitly.
* Buffers (`m_p_videoram`, `m_p_chargen`, `quick_data`) are lists; every index
  operation is checked, and an out-of-range index (undefined behaviour in the
  source) makes the routine return `none`.
* Every buffer access is also recorded, in program order, in a ghost trace of
  `Access` events, so that the set of touched offsets can be stated directly.
-/

namespace Cd2650

/-! ## Machine constants -/

/-- Source: `#define CHARACTER_WIDTH 8`. -/
def CHARACTER_WIDTH : Nat := 8

/-- Source: `#define CHARACTER_HEIGHT 8`. -/
def CHARACTER_HEIGHT : Nat := 8

/-- Source: `#define CHARACTER_LINES 12`. -/
def CHARACTER_LINES : Nat := 12

/-- Size of the RAM shared as "videoram":
`AM_RANGE(0x1000, 0x7fff) AM_RAM AM_SHARE("videoram")`. -/
def VIDEORAM_SIZE : Nat := 0x7fff + 1 - 0x1000

/-- Size of the character generator region: `ROM_REGION( 0x0600, "chargen", 0 )`. -/
def CHARGEN_SIZE : Nat := 0x0600

/-- Ghost event: one buffer access performed by a routine. -/
inductive Access where
  | imageRead (i : Nat)
  | ramWrite (off : Nat)
  | ramRead (off : Nat)
  | chargenRead (i : Nat)
  deriving DecidableEq

/-! ## Quickload -/

/-- The result type `image_init_result` of a quickload. -/
inductive image_init_result where
  | PASS
  | FAIL
  deriving DecidableEq

/-- The error set through `image.seterror(IMAGE_ERROR_INVALIDIMAGE, ...)`,
one constructor per message of the source. -/
inductive LoadError where
  /-- Message "File too short". -/
  | TooShort
  /-- Message "File too long". -/
  | TooLong
  /-- Message "Cannot read the file". -/
  | CannotRead
  /-- Message "Invalid header". -/
  | InvalidHeader
  /-- Message "Exec address beyond end of file". -/
  | EntryOutOfRange
  deriving DecidableEq

/-- The part of `cd2650_state` the quickload touches: the shared RAM
`m_p_videoram` and the program counter `S2650_PC` of `m_maincpu`. -/
structure State where
  videoram : List Nat
  pc : Nat

/-- What a quickload leaves behind: the returned `image_init_result`, the
error set on the image (if any), the machine state, and the ghost trace. -/
structure Outcome where
  result : image_init_result
  error : Option LoadError
  videoram : List Nat
  pc : Nat
  trace : List Access

/-- Modelled from the spec: `image.length()` and `image.fread` belong to the
host framework and are not part of the driver.  The image is a byte sequence
(the spec's ImageBuffer); its length is the length of the sequence, and reading
`n` bytes from its start fills a zero-initialised buffer of `n` bytes
(`std::vector<uint8_t> quick_data(quick_length)`) with the bytes available and
returns how many were read. -/
def fread (image : List Nat) (n : Nat) : List Nat × Nat :=
  (image.take n ++ List.replicate (n - image.length) 0, min n image.length)

/-- The loop `for (i = i0; i < i0 + n; i++) m_p_videoram[i-0x1000] = quick_data[i];`
with `n` iterations left, acting on the RAM and the ghost trace. -/
def copyLoop (quick_data : List Nat) :
    Nat → Nat → List Nat × List Access → Option (List Nat × List Access)
  | 0, _, s => some s
  | n + 1, i, (ram, tr) =>
    match quick_data[i]? with
    | none => none
    | some b =>
      if 0x1000 ≤ i ∧ i - 0x1000 < ram.length then
        copyLoop quick_data n (i + 1)
          (ram.set (i - 0x1000) b, tr ++ [Access.imageRead i, Access.ramWrite (i - 0x1000)])
      else none

/-- The outcome of a quickload that reports `e`: nothing is written. -/
def failWith (st : State) (e : LoadError) (tr : List Access) : Outcome :=
  { result := image_init_result.FAIL, error := some e,
    videoram := st.videoram, pc := st.pc, trace := tr }

/-- The quickload routine, `QUICKLOAD_LOAD_MEMBER( cd2650_state, cd2650 )`.
The `int` variables `quick_length`, `read_`, `exec_addr` and `i` of the source
are natural numbers here: for bytes `exec_addr` is at most 255 * 256 + 255, and
the others are bounded by the image length, which is taken to fit the `int` it
is stored in.  The messages shown through `image.message` repeat the error and
are not modelled. -/
def quickload (st : State) (image : List Nat) : Option Outcome :=
  let quick_length := image.length
  if quick_length < 0x1500 then
    some (failWith st LoadError.TooShort [])
  else if quick_length > 0x8000 then
    some (failWith st LoadError.TooLong [])
  else
    let quick_data := (fread image quick_length).1
    let read_ := (fread image quick_length).2
    if read_ ≠ quick_length then
      some (failWith st LoadError.CannotRead [])
    else
      match quick_data[0]? with
      | none => none
      | some b0 =>
        if b0 ≠ 0x40 then
          some (failWith st LoadError.InvalidHeader [Access.imageRead 0])
        else
          match quick_data[1]?, quick_data[2]? with
          | some b1, some b2 =>
            let exec_addr := b1 * 256 + b2
            let tr := [Access.imageRead 0, Access.imageRead 1, Access.imageRead 2]
            if exec_addr ≥ quick_length then
              some (failWith st LoadError.EntryOutOfRange tr)
            else
              -- do not overwite system area (17E0-17FF) otherwise chess3 has problems
              let read_ := if quick_length < 0x17e0 then quick_length else 0x17e0
              match copyLoop quick_data (read_ - 0x1500) 0x1500 (st.videoram, tr) with
              | none => none
              | some s1 =>
                match (if quick_length > 0x17ff then
                         copyLoop quick_data (quick_length - 0x1800) 0x1800 s1
                       else some s1) with
                | none => none
                | some (ram, tr2) =>
                  -- m_maincpu->set_state_int(S2650_PC, exec_addr);
                  some { result := image_init_result.PASS, error := none,
                         videoram := ram, pc := exec_addr, trace := tr2 }
          | _, _ => none

/-! ## Screen update -/

/-- Modelled from the spec: `BIT(x, n)` is a host framework helper; it is bit
`n` of `x` ("each pixel = corresponding bit of glyph byte"). -/
def BIT (x n : Nat) : Nat := (x >>> n) &&& 1

/-- Modelled from the spec: `bitswap<8>(val, b7, ..., b0)` is a host framework
helper; bit `k` of the result is bit `bk` of `val` ("reorder bits
(7,6,2,1,0,3,4,5)"). -/
def bitswap8 (val b7 b6 b5 b4 b3 b2 b1 b0 : Nat) : Nat :=
  (BIT val b7 <<< 7) ||| (BIT val b6 <<< 6) ||| (BIT val b5 <<< 5) ||| (BIT val b4 <<< 4) |||
  (BIT val b3 <<< 3) ||| (BIT val b2 <<< 2) ||| (BIT val b1 <<< 1) ||| (BIT val b0 <<< 0)

/-- The glyph index permutation of the source, `bitswap<8>(chr,7,6,2,1,0,3,4,5)`. -/
def perm (chr : Nat) : Nat := bitswap8 chr 7 6 2 1 0 3 4 5

/-- The video RAM offset of the character at row `y`, column `x`:
`mem = offset + y + (x<<4); if (mem > 0x4ff) mem -= 0x500;` with `mem` a
`uint16_t`. -/
def memAddr (offset y x : Nat) : Nat :=
  let mem := (offset + y + (x <<< 4)) % 65536
  if mem > 0x4ff then (mem - 0x500) % 65536 else mem

/-- The character generator index of scanline `ra` of character `chr`:
`(bitswap<8>(chr,7,6,2,1,0,3,4,5)<<3) | ra`. -/
def glyphAddr (chr ra : Nat) : Nat := (perm chr <<< 3) ||| ra

/-- The eight pixels of one scanline of a character, most significant bit first. -/
def pixels (gfx : Nat) : List Nat :=
  [BIT gfx 7, BIT gfx 6, BIT gfx 5, BIT gfx 4, BIT gfx 3, BIT gfx 2, BIT gfx 1, BIT gfx 0]

/-- A counted loop `for (i = i0; i < i0 + n; i++)` whose body appends to an
output and to the ghost trace. -/
def forLoop {α : Type} (body : Nat → Option (List α × List Access)) :
    Nat → Nat → Option (List α × List Access)
  | 0, _ => some ([], [])
  | n + 1, i =>
    match body i with
    | none => none
    | some (out, tr) =>
      match forLoop body n (i + 1) with
      | none => none
      | some (outs, trs) => some (out ++ outs, tr ++ trs)

/-- Body of the `x` loop: the eight pixels written through `p` for column `x`. -/
def cell (videoram chargen : List Nat) (offset y ra x : Nat) : Option (List Nat × List Access) :=
  if ra < CHARACTER_HEIGHT then
    let mem := memAddr offset y x
    match videoram[mem]? with
    | none => none
    | some v =>
      let chr := v &&& 0x3f
      match chargen[glyphAddr chr ra]? with
      | none => none
      | some gfx => some (pixels gfx, [Access.ramRead mem, Access.chargenRead (glyphAddr chr ra)])
  else
    some (pixels 0, [])

/-- Body of the `ra` loop: one bitmap row, `bitmap.pix16(sy++)`. -/
def scanline (videoram chargen : List Nat) (offset y ra : Nat) :
    Option (List (List Nat) × List Access) :=
  match forLoop (cell videoram chargen offset y ra) 80 0 with
  | none => none
  | some (p, tr) => some ([p], tr)

/-- Body of the `y` loop: the `CHARACTER_LINES` bitmap rows of text line `y`. -/
def textLine (videoram chargen : List Nat) (offset y : Nat) :
    Option (List (List Nat) × List Access) :=
  forLoop (scanline videoram chargen offset y) CHARACTER_LINES 0

/-- The routine `cd2650_state::screen_update`: the bitmap rows written, in the order of
`sy`, each row being the pixels written through `p`, and the ghost trace. -/
def screen_update (videoram chargen : List Nat) : Option (List (List Nat) × List Access) :=
  let offset := 0
  forLoop (textLine videoram chargen offset) 16 0

/-- The pixel of a bitmap at row `r`, column `c`. -/
def pixelAt (bitmap : List (List Nat)) (r c : Nat) : Option Nat :=
  match bitmap[r]? with
  | none => none
  | some row => row[c]?

/-! ## Closed forms used in the statements -/

/-- The ghost events of the three header reads of a quickload. -/
def headerTrace : List Access := [Access.imageRead 0, Access.imageRead 1, Access.imageRead 2]

/-- The ghost events of a copy loop of `n` iterations starting at image index `i`. -/
def copyTrace (i n : Nat) : List Access :=
  (List.range' i n).flatMap (fun j => [Access.imageRead j, Access.ramWrite (j - 0x1000)])

/-- The glyph byte shown at text row `y`, scanline `ra`, column `x`. -/
def gfxAt (videoram chargen : List Nat) (y ra x : Nat) : Nat :=
  if ra < 8 then chargen.getD (glyphAddr (videoram.getD (y + 16 * x) 0 &&& 0x3f) ra) 0 else 0

/-- The ghost events of one character cell. -/
def cellTrace (videoram : List Nat) (y ra x : Nat) : List Access :=
  if ra < 8 then
    [Access.ramRead (y + 16 * x),
     Access.chargenRead (glyphAddr (videoram.getD (y + 16 * x) 0 &&& 0x3f) ra)]
  else []

/-- The bitmap written by a screen update, in closed form. -/
def bitmapOf (videoram chargen : List Nat) : List (List Nat) :=
  (List.range' 0 16).flatMap fun y =>
    (List.range' 0 12).flatMap fun ra =>
      [(List.range' 0 80).flatMap fun x => pixels (gfxAt videoram chargen y ra x)]

/-- The ghost trace of a screen update, in closed form. -/
def traceOf (videoram : List Nat) : List Access :=
  (List.range' 0 16).flatMap fun y =>
    (List.range' 0 12).flatMap fun ra =>
      (List.range' 0 80).flatMap fun x => cellTrace videoram y ra x

/-! ## Concrete inputs -/

/-- A RAM of the machine's size, all zero. -/
def zeroRam : List Nat := List.replicate VIDEORAM_SIZE 0

/-- A character generator of the machine's size, all zero. -/
def zeroChargen : List Nat := List.replicate CHARGEN_SIZE 0

/-- A well-formed image of 0x1600 bytes: header 0x40, entry address 0x1501. -/
def sampleImage : List Nat := 0x40 :: 0x15 :: 0x01 :: List.replicate 0x15fd 0xaa

/-- A character generator in which only the top scanline of glyph 8 (the
glyph of character code 0x01) is non-zero. -/
def markerChargen : List Nat := zeroChargen.set 64 0x80

/-! ## Quickload: helper lemmas -/

theorem fread_all (image : List Nat) : fread image image.length = (image, image.length) := by
  simp [fread]

theorem copyLoop_spec (qd : List Nat) : ∀ (n i : Nat) (ram : List Nat) (tr : List Access),
    0x1000 ≤ i → i + n ≤ qd.length → i + n ≤ ram.length + 0x1000 →
    ∃ ram', copyLoop qd n i (ram, tr) = some (ram', tr ++ copyTrace i n)
      ∧ ram'.length = ram.length
      ∧ ∀ o, ram'[o]? =
          if i ≤ o + 0x1000 ∧ o + 0x1000 < i + n then qd[o + 0x1000]? else ram[o]? := by
  intro n
  induction n with
  | zero =>
    intro i ram tr _ _ _
    refine ⟨ram, by simp [copyLoop, copyTrace], rfl, ?_⟩
    intro o
    have : ¬ (i ≤ o + 0x1000 ∧ o + 0x1000 < i + 0) := by omega
    rw [if_neg this]
  | succ n ih =>
    intro i ram tr hi hq hr
    have hiq : i < qd.length := by omega
    have hget : qd[i]? = some qd[i] := List.getElem?_eq_getElem hiq
    have hguard : 0x1000 ≤ i ∧ i - 0x1000 < ram.length := by omega
    obtain ⟨ram', h1, h2, h3⟩ := ih (i + 1) (ram.set (i - 0x1000) qd[i])
      (tr ++ [Access.imageRead i, Access.ramWrite (i - 0x1000)]) (by omega) (by omega)
      (by simp only [List.length_set]; omega)
    refine ⟨ram', ?_, ?_, ?_⟩
    · simp only [copyLoop, hget, if_pos hguard, h1]
      simp [copyTrace, List.range'_succ]
    · simpa using h2
    · intro o
      rw [h3 o]
      by_cases ho : o = i - 0x1000
      · have e : o + 0x1000 = i := by omega
        have c1 : ¬ (i + 1 ≤ o + 0x1000 ∧ o + 0x1000 < i + 1 + n) := by omega
        have c2 : i ≤ o + 0x1000 ∧ o + 0x1000 < i + (n + 1) := by omega
        have ho' : i - 0x1000 = o := ho.symm
        have hlt : o < ram.length := by omega
        rw [if_neg c1, if_pos c2, e, hget, ho', List.getElem?_set, if_pos rfl, if_pos hlt]
      · have hne : i - 0x1000 ≠ o := fun h => ho h.symm
        rw [List.getElem?_set_ne hne]
        by_cases c : i + 1 ≤ o + 0x1000 ∧ o + 0x1000 < i + 1 + n
        · have c2 : i ≤ o + 0x1000 ∧ o + 0x1000 < i + (n + 1) := by omega
          rw [if_pos c, if_pos c2]
        · have c2 : ¬ (i ≤ o + 0x1000 ∧ o + 0x1000 < i + (n + 1)) := by omega
          rw [if_neg c, if_neg c2]

theorem getElem?_eq_some_getD (l : List Nat) (i : Nat) (h : i < l.length) :
    l[i]? = some (l.getD i 0) := by
  simp [List.getD, List.getElem?_eq_getElem h]

theorem quickload_tooShort (st : State) (image : List Nat) (h : image.length < 0x1500) :
    quickload st image = some (failWith st LoadError.TooShort []) := by
  simp [quickload, h]

theorem quickload_tooLong (st : State) (image : List Nat) (h : image.length > 0x8000) :
    quickload st image = some (failWith st LoadError.TooLong []) := by
  have h1 : ¬ image.length < 0x1500 := by omega
  simp [quickload, h1, h]

theorem quickload_badHeader (st : State) (image : List Nat)
    (h1 : 0x1500 ≤ image.length) (h2 : image.length ≤ 0x8000) (h0 : image.getD 0 0 ≠ 0x40) :
    quickload st image = some (failWith st LoadError.InvalidHeader [Access.imageRead 0]) := by
  have a1 : ¬ image.length < 0x1500 := by omega
  have a2 : ¬ image.length > 0x8000 := by omega
  have g0 := getElem?_eq_some_getD image 0 (by omega)
  unfold quickload
  dsimp only
  simp only [fread_all, if_neg a1, if_neg a2, g0, ne_eq, not_true_eq_false, if_false,
    h0, not_false_eq_true, if_true]

theorem quickload_badEntry (st : State) (image : List Nat)
    (h1 : 0x1500 ≤ image.length) (h2 : image.length ≤ 0x8000) (h0 : image.getD 0 0 = 0x40)
    (he : image.getD 1 0 * 256 + image.getD 2 0 ≥ image.length) :
    quickload st image = some (failWith st LoadError.EntryOutOfRange headerTrace) := by
  have a1 : ¬ image.length < 0x1500 := by omega
  have a2 : ¬ image.length > 0x8000 := by omega
  have g0 := getElem?_eq_some_getD image 0 (by omega)
  have g1 := getElem?_eq_some_getD image 1 (by omega)
  have g2 := getElem?_eq_some_getD image 2 (by omega)
  unfold quickload
  dsimp only
  simp only [fread_all, if_neg a1, if_neg a2, g0, g1, g2, h0, ne_eq, not_true_eq_false,
    if_false, if_pos he, headerTrace]

theorem quickload_pass (st : State) (image : List Nat)
    (hram : st.videoram.length = VIDEORAM_SIZE)
    (h1 : 0x1500 ≤ image.length) (h2 : image.length ≤ 0x8000) (h0 : image.getD 0 0 = 0x40)
    (he : image.getD 1 0 * 256 + image.getD 2 0 < image.length) :
    ∃ ram', quickload st image = some
        { result := image_init_result.PASS, error := none, videoram := ram',
          pc := image.getD 1 0 * 256 + image.getD 2 0,
          trace := headerTrace ++ copyTrace 0x1500 (min image.length 0x17e0 - 0x1500)
                     ++ copyTrace 0x1800 (image.length - 0x1800) }
      ∧ ram'.length = st.videoram.length
      ∧ ∀ o, ram'[o]? =
          if (0x1500 ≤ o + 0x1000 ∧ o + 0x1000 < min image.length 0x17e0)
              ∨ (0x1800 ≤ o + 0x1000 ∧ o + 0x1000 < image.length)
          then image[o + 0x1000]? else st.videoram[o]? := by
  have hsz : VIDEORAM_SIZE = 0x7000 := rfl
  rw [hsz] at hram
  have a1 : ¬ image.length < 0x1500 := by omega
  have a2 : ¬ image.length > 0x8000 := by omega
  have a3 : ¬ image.getD 1 0 * 256 + image.getD 2 0 ≥ image.length := by omega
  have g0 := getElem?_eq_some_getD image 0 (by omega)
  have g1 := getElem?_eq_some_getD image 1 (by omega)
  have g2 := getElem?_eq_some_getD image 2 (by omega)
  have hread : (if image.length < 0x17e0 then image.length else 0x17e0) = min image.length 0x17e0 := by
    split <;> omega
  obtain ⟨r1, e1, l1, p1⟩ := copyLoop_spec image (min image.length 0x17e0 - 0x1500) 0x1500
    st.videoram headerTrace (by omega) (by omega) (by omega)
  by_cases hbig : image.length > 0x17ff
  · obtain ⟨r2, e2, l2, p2⟩ := copyLoop_spec image (image.length - 0x1800) 0x1800
      r1 (headerTrace ++ copyTrace 0x1500 (min image.length 0x17e0 - 0x1500))
      (by omega) (by omega) (by omega)
    refine ⟨r2, ?_, by omega, ?_⟩
    · unfold quickload
      dsimp only
      simp only [fread_all, if_neg a1, if_neg a2, g0, g1, g2, h0, ne_eq,
        not_true_eq_false, if_false, if_neg a3, hread]
      rw [show [Access.imageRead 0, Access.imageRead 1, Access.imageRead 2] = headerTrace from rfl,
        e1]
      simp only [if_pos hbig, e2]
    · intro o
      rw [p2 o, p1 o]
      by_cases c2 : 0x1800 ≤ o + 0x1000 ∧ o + 0x1000 < 0x1800 + (image.length - 0x1800)
      · have c : (0x1500 ≤ o + 0x1000 ∧ o + 0x1000 < min image.length 0x17e0)
              ∨ (0x1800 ≤ o + 0x1000 ∧ o + 0x1000 < image.length) := by omega
        rw [if_pos c2, if_pos c]
      · rw [if_neg c2]
        by_cases c1 : 0x1500 ≤ o + 0x1000 ∧
            o + 0x1000 < 0x1500 + (min image.length 0x17e0 - 0x1500)
        · have c : (0x1500 ≤ o + 0x1000 ∧ o + 0x1000 < min image.length 0x17e0)
              ∨ (0x1800 ≤ o + 0x1000 ∧ o + 0x1000 < image.length) := by omega
          rw [if_pos c1, if_pos c]
        · have c : ¬ ((0x1500 ≤ o + 0x1000 ∧ o + 0x1000 < min image.length 0x17e0)
              ∨ (0x1800 ≤ o + 0x1000 ∧ o + 0x1000 < image.length)) := by omega
          rw [if_neg c1, if_neg c]
  · refine ⟨r1, ?_, l1, ?_⟩
    · have hz : image.length - 0x1800 = 0 := by omega
      unfold quickload
      dsimp only
      simp only [fread_all, if_neg a1, if_neg a2, g0, g1, g2, h0, ne_eq,
        not_true_eq_false, if_false, if_neg a3, hread]
      rw [show [Access.imageRead 0, Access.imageRead 1, Access.imageRead 2] = headerTrace from rfl,
        e1]
      simp only [if_neg hbig, hz]
      simp [copyTrace]
    · intro o
      rw [p1 o]
      by_cases c1 : 0x1500 ≤ o + 0x1000 ∧
          o + 0x1000 < 0x1500 + (min image.length 0x17e0 - 0x1500)
      · have c : (0x1500 ≤ o + 0x1000 ∧ o + 0x1000 < min image.length 0x17e0)
            ∨ (0x1800 ≤ o + 0x1000 ∧ o + 0x1000 < image.length) := by omega
        rw [if_pos c1, if_pos c]
      · have c : ¬ ((0x1500 ≤ o + 0x1000 ∧ o + 0x1000 < min image.length 0x17e0)
            ∨ (0x1800 ≤ o + 0x1000 ∧ o + 0x1000 < image.length)) := by omega
        rw [if_neg c1, if_neg c]


/-! ## Screen update: helper lemmas -/

theorem forLoop_eq {α : Type} (body : Nat → Option (List α × List Access))
    (f : Nat → List α) (g : Nat → List Access) :
    ∀ (n s : Nat), (∀ i, s ≤ i → i < s + n → body i = some (f i, g i)) →
      forLoop body n s = some ((List.range' s n).flatMap f, (List.range' s n).flatMap g) := by
  intro n
  induction n with
  | zero => intro s _; simp [forLoop]
  | succ n ih =>
    intro s h
    have h0 := h s (Nat.le_refl s) (by omega)
    have h1 := ih (s + 1) (fun i hi1 hi2 => h i (by omega) (by omega))
    simp [forLoop, h0, h1, List.range'_succ]

theorem forLoop_congr {α : Type} (body body' : Nat → Option (List α × List Access)) :
    ∀ (n s : Nat), (∀ i, s ≤ i → i < s + n → body i = body' i) →
      forLoop body n s = forLoop body' n s := by
  intro n
  induction n with
  | zero => intro s _; simp [forLoop]
  | succ n ih =>
    intro s h
    have h0 := h s (Nat.le_refl s) (by omega)
    have h1 := ih (s + 1) (fun i hi1 hi2 => h i (by omega) (by omega))
    simp [forLoop, h0, h1]

theorem length_flatMap_uniform {ι α : Type} (f : ι → List α) (k : Nat) :
    ∀ (l : List ι), (∀ a ∈ l, (f a).length = k) → (l.flatMap f).length = k * l.length := by
  intro l
  induction l with
  | nil => intro _; simp
  | cons a l ih =>
    intro h
    have ha := h a (List.mem_cons_self a l)
    have hl := ih (fun b hb => h b (List.mem_cons_of_mem a hb))
    simp only [List.flatMap_cons, List.length_append, ha, hl, List.length_cons]
    ring

theorem getElem?_flatMap_uniform {ι α : Type} (f : ι → List α) (k : Nat) :
    ∀ (l : List ι), (∀ a ∈ l, (f a).length = k) → ∀ i j, j < k →
      (l.flatMap f)[k * i + j]? = (l[i]?).bind (fun a => (f a)[j]?) := by
  intro l
  induction l with
  | nil => intro _ i j _; simp
  | cons a l ih =>
    intro h i j hj
    have ha := h a (List.mem_cons_self a l)
    have hl := ih (fun b hb => h b (List.mem_cons_of_mem a hb))
    cases i with
    | zero =>
      simp only [List.flatMap_cons, Nat.mul_zero, Nat.zero_add]
      rw [List.getElem?_append_left (by omega)]
      simp
    | succ i =>
      have e : k * (i + 1) + j = (f a).length + (k * i + j) := by rw [ha]; ring
      simp only [List.flatMap_cons]
      rw [e, List.getElem?_append_right (by omega)]
      simp only [Nat.add_sub_cancel_left]
      rw [hl i j hj]
      simp

theorem BIT_eq (x n : Nat) : BIT x n = x / 2 ^ n % 2 := by
  simp [BIT, Nat.shiftRight_eq_div_pow, Nat.and_one_is_mod]

theorem memAddr_eq (y x : Nat) (hy : y < 16) (hx : x < 80) : memAddr 0 y x = y + 16 * x := by
  have e : x <<< 4 = 16 * x := by simp [Nat.shiftLeft_eq]; ring
  have h1 : (0 + y + 16 * x) % 65536 = y + 16 * x := by
    rw [Nat.zero_add]; exact Nat.mod_eq_of_lt (by omega)
  have h2 : ¬ (y + 16 * x > 0x4ff) := by omega
  simp only [memAddr, e, h1, if_neg h2]

theorem memAddr_wrap (y x : Nat) (hy : y < 16) (hx : x < 80) :
    memAddr 0x500 y x = y + 16 * x := by
  have e : x <<< 4 = 16 * x := by simp [Nat.shiftLeft_eq]; ring
  have h1 : (0x500 + y + 16 * x) % 65536 = 0x500 + y + 16 * x :=
    Nat.mod_eq_of_lt (by omega)
  have h2 : 0x500 + y + 16 * x > 0x4ff := by omega
  have h3 : (0x500 + y + 16 * x - 0x500) % 65536 = y + 16 * x := by
    have : 0x500 + y + 16 * x - 0x500 = y + 16 * x := by omega
    rw [this]; exact Nat.mod_eq_of_lt (by omega)
  simp only [memAddr, e, h1, if_pos h2, h3]

set_option maxRecDepth 4096 in
theorem perm_lt : ∀ c, c < 64 → perm c < 64 := by decide

theorem glyphAddr_lt (v ra : Nat) (hra : ra < 8) : glyphAddr (v &&& 0x3f) ra < 0x200 := by
  have h1 : v &&& 0x3f < 64 := by
    have := Nat.and_pow_two_sub_one_eq_mod v 6
    simp at this
    rw [this]; exact Nat.mod_lt _ (by decide)
  have h2 := perm_lt _ h1
  have h3 : perm (v &&& 0x3f) <<< 3 < 2 ^ 9 := by
    rw [Nat.shiftLeft_eq]; omega
  have h4 : ra < 2 ^ 9 := by omega
  exact Nat.or_lt_two_pow h3 h4

theorem pixels_length (g : Nat) : (pixels g).length = 8 := rfl

theorem pixels_getElem? (g b : Nat) (hb : b < 8) : (pixels g)[b]? = some (BIT g (7 - b)) := by
  interval_cases b <;> rfl

theorem cell_eq (videoram chargen : List Nat) (hv : 0x500 ≤ videoram.length)
    (hc : 0x200 ≤ chargen.length) (y ra x : Nat) (hy : y < 16) (hx : x < 80) :
    cell videoram chargen 0 y ra x
      = some (pixels (gfxAt videoram chargen y ra x), cellTrace videoram y ra x) := by
  by_cases hra : ra < 8
  · have hra' : ra < CHARACTER_HEIGHT := hra
    have hm : y + 16 * x < videoram.length := by omega
    have hg := glyphAddr_lt (videoram.getD (y + 16 * x) 0) ra hra
    have hg' : glyphAddr (videoram.getD (y + 16 * x) 0 &&& 0x3f) ra < chargen.length := by omega
    simp only [cell, if_pos hra', memAddr_eq y x hy hx, getElem?_eq_some_getD videoram _ hm,
      getElem?_eq_some_getD chargen _ hg', gfxAt, cellTrace, if_pos hra]
  · have hra' : ¬ ra < CHARACTER_HEIGHT := hra
    simp only [cell, if_neg hra', gfxAt, cellTrace, if_neg hra]

theorem screen_update_eq (videoram chargen : List Nat) (hv : 0x500 ≤ videoram.length)
    (hc : 0x200 ≤ chargen.length) :
    screen_update videoram chargen = some (bitmapOf videoram chargen, traceOf videoram) := by
  unfold screen_update
  dsimp only
  apply forLoop_eq
  intro y _ hy
  unfold textLine
  apply forLoop_eq
  intro ra _ _
  unfold scanline
  rw [forLoop_eq _ (fun x => pixels (gfxAt videoram chargen y ra x))
    (fun x => cellTrace videoram y ra x) 80 0
    (fun x _ hx => cell_eq videoram chargen hv hc y ra x (by omega) (by omega))]


theorem row_length (videoram chargen : List Nat) (y ra : Nat) :
    ((List.range' 0 80).flatMap fun x => pixels (gfxAt videoram chargen y ra x)).length = 640 := by
  rw [length_flatMap_uniform _ 8 _ (fun a _ => pixels_length _)]
  simp

theorem textLine_length (videoram chargen : List Nat) (y : Nat) :
    ((List.range' 0 12).flatMap fun ra =>
      [(List.range' 0 80).flatMap fun x => pixels (gfxAt videoram chargen y ra x)]).length = 12 := by
  rw [length_flatMap_uniform _ 1 _ (fun a _ => List.length_singleton _)]
  simp

theorem bitmapOf_length (videoram chargen : List Nat) : (bitmapOf videoram chargen).length = 192 := by
  unfold bitmapOf
  rw [length_flatMap_uniform _ 12 _ (fun a _ => textLine_length videoram chargen a)]
  simp

theorem bitmapOf_row_length (videoram chargen : List Nat) :
    ∀ row ∈ bitmapOf videoram chargen, row.length = 640 := by
  intro row hrow
  simp only [bitmapOf, List.mem_flatMap, List.mem_singleton] at hrow
  obtain ⟨y, _, ra, _, rfl⟩ := hrow
  exact row_length videoram chargen y ra

theorem bitmapOf_row (videoram chargen : List Nat) (y ra : Nat) (hy : y < 16) (hra : ra < 12) :
    (bitmapOf videoram chargen)[12 * y + ra]?
      = some ((List.range' 0 80).flatMap fun x => pixels (gfxAt videoram chargen y ra x)) := by
  unfold bitmapOf
  rw [getElem?_flatMap_uniform _ 12 _ (fun a _ => textLine_length videoram chargen a) y ra hra]
  have e1 : (List.range' 0 16)[y]? = some y := by
    rw [List.getElem?_range' _ _ hy]; simp
  rw [e1]
  simp only [Option.some_bind]
  have e2 := getElem?_flatMap_uniform
    (fun ra => [(List.range' 0 80).flatMap fun x => pixels (gfxAt videoram chargen y ra x)]) 1
    (List.range' 0 12) (fun a _ => List.length_singleton _) ra 0 (by omega)
  simp only [Nat.one_mul, Nat.add_zero] at e2
  rw [e2]
  have e3 : (List.range' 0 12)[ra]? = some ra := by
    rw [List.getElem?_range' _ _ hra]; simp
  rw [e3]
  simp

theorem bitmapOf_pixel (videoram chargen : List Nat) (y ra x b : Nat)
    (hy : y < 16) (hra : ra < 12) (hx : x < 80) (hb : b < 8) :
    pixelAt (bitmapOf videoram chargen) (12 * y + ra) (8 * x + b)
      = some (BIT (gfxAt videoram chargen y ra x) (7 - b)) := by
  unfold pixelAt
  rw [bitmapOf_row videoram chargen y ra hy hra]
  simp only []
  rw [getElem?_flatMap_uniform _ 8 _ (fun a _ => pixels_length _) x b hb]
  have e1 : (List.range' 0 80)[x]? = some x := by
    rw [List.getElem?_range' _ _ hx]; simp
  rw [e1]
  simp only [Option.some_bind]
  exact pixels_getElem? _ b hb

theorem mem_traceOf (videoram : List Nat) (a : Access) :
    a ∈ traceOf videoram ↔
      ∃ y ra x, y < 16 ∧ ra < 8 ∧ x < 80 ∧
        (a = Access.ramRead (y + 16 * x) ∨
         a = Access.chargenRead (glyphAddr (videoram.getD (y + 16 * x) 0 &&& 0x3f) ra)) := by
  simp only [traceOf, List.mem_flatMap, List.mem_range'_1]
  constructor
  · rintro ⟨y, ⟨_, hy⟩, ra, ⟨_, _⟩, x, ⟨_, hx⟩, h⟩
    unfold cellTrace at h
    by_cases hra : ra < 8
    · rw [if_pos hra] at h
      simp only [List.mem_cons, List.mem_singleton, List.not_mem_nil, or_false] at h
      exact ⟨y, ra, x, by omega, hra, by omega, h⟩
    · rw [if_neg hra] at h
      simp at h
  · rintro ⟨y, ra, x, hy, hra, hx, h⟩
    refine ⟨y, ⟨by omega, by omega⟩, ra, ⟨by omega, by omega⟩, x, ⟨by omega, by omega⟩, ?_⟩
    unfold cellTrace
    rw [if_pos hra]
    simp only [List.mem_cons, List.mem_singleton, List.not_mem_nil, or_false]
    exact h

theorem mem_copyTrace (a : Access) (i n : Nat) :
    a ∈ copyTrace i n ↔
      ∃ j, i ≤ j ∧ j < i + n ∧ (a = Access.imageRead j ∨ a = Access.ramWrite (j - 0x1000)) := by
  simp only [copyTrace, List.mem_flatMap, List.mem_range'_1, List.mem_cons, List.mem_singleton,
    List.not_mem_nil, or_false]
  constructor
  · rintro ⟨j, ⟨h1, h2⟩, h⟩
    exact ⟨j, h1, h2, h⟩
  · rintro ⟨j, h1, h2, h⟩
    exact ⟨j, ⟨h1, h2⟩, h⟩

theorem mem_headerTrace (a : Access) :
    a ∈ headerTrace ↔ a = Access.imageRead 0 ∨ a = Access.imageRead 1 ∨ a = Access.imageRead 2 := by
  simp [headerTrace]

/-- Every outcome of a quickload, in one statement: either a failure that
leaves the machine untouched, or the success outcome of `quickload_pass`. -/
theorem quickload_cases (st : State) (image : List Nat)
    (hram : st.videoram.length = VIDEORAM_SIZE) :
    (∃ e tr, quickload st image = some (failWith st e tr)
        ∧ (∀ a ∈ tr, ∃ i, a = Access.imageRead i ∧ i < image.length)
        ∧ e = (if image.length < 0x1500 then LoadError.TooShort
               else if image.length > 0x8000 then LoadError.TooLong
               else if image.getD 0 0 ≠ 0x40 then LoadError.InvalidHeader
               else LoadError.EntryOutOfRange)
        ∧ ¬ (0x1500 ≤ image.length ∧ image.length ≤ 0x8000 ∧ image.getD 0 0 = 0x40
              ∧ image.getD 1 0 * 256 + image.getD 2 0 < image.length))
    ∨ (0x1500 ≤ image.length ∧ image.length ≤ 0x8000 ∧ image.getD 0 0 = 0x40
        ∧ image.getD 1 0 * 256 + image.getD 2 0 < image.length
        ∧ ∃ ram', quickload st image = some
            { result := image_init_result.PASS, error := none, videoram := ram',
              pc := image.getD 1 0 * 256 + image.getD 2 0,
              trace := headerTrace ++ copyTrace 0x1500 (min image.length 0x17e0 - 0x1500)
                         ++ copyTrace 0x1800 (image.length - 0x1800) }
          ∧ ram'.length = st.videoram.length
          ∧ ∀ o, ram'[o]? =
              if (0x1500 ≤ o + 0x1000 ∧ o + 0x1000 < min image.length 0x17e0)
                  ∨ (0x1800 ≤ o + 0x1000 ∧ o + 0x1000 < image.length)
              then image[o + 0x1000]? else st.videoram[o]?) := by
  by_cases c1 : image.length < 0x1500
  · left
    refine ⟨_, _, quickload_tooShort st image c1, by simp, by rw [if_pos c1], by omega⟩
  · by_cases c2 : image.length > 0x8000
    · left
      refine ⟨_, _, quickload_tooLong st image c2, by simp,
        by rw [if_neg c1, if_pos c2], by omega⟩
    · by_cases c3 : image.getD 0 0 ≠ 0x40
      · left
        refine ⟨_, _, quickload_badHeader st image (by omega) (by omega) c3, ?_,
          by rw [if_neg c1, if_neg c2, if_pos c3], fun h => c3 h.2.2.1⟩
        intro a ha
        exact ⟨0, by simpa using ha, by omega⟩
      · have c3' : image.getD 0 0 = 0x40 := by
          by_contra h; exact c3 h
        by_cases c4 : image.getD 1 0 * 256 + image.getD 2 0 ≥ image.length
        · left
          refine ⟨_, _, quickload_badEntry st image (by omega) (by omega) c3' c4, ?_,
            by rw [if_neg c1, if_neg c2, if_neg c3], by omega⟩
          intro a ha
          rcases (mem_headerTrace a).mp ha with h | h | h
          · exact ⟨0, h, by omega⟩
          · exact ⟨1, h, by omega⟩
          · exact ⟨2, h, by omega⟩
        · right
          exact ⟨by omega, by omega, c3', by omega,
            quickload_pass st image hram (by omega) (by omega) c3' (by omega)⟩


/-! ## Concrete inputs: helper lemmas -/

theorem zeroRam_length : zeroRam.length = VIDEORAM_SIZE := List.length_replicate _ _

theorem zeroChargen_length : zeroChargen.length = CHARGEN_SIZE := List.length_replicate _ _

theorem sampleImage_length : sampleImage.length = 0x1600 := by
  simp only [sampleImage, List.length_cons, List.length_replicate]

theorem sampleImage_header :
    sampleImage.getD 0 0 = 0x40 ∧ sampleImage.getD 1 0 = 0x15 ∧ sampleImage.getD 2 0 = 0x01 :=
  ⟨rfl, rfl, rfl⟩

theorem sampleImage_pass :
    ∃ out, quickload { videoram := zeroRam, pc := 0 } sampleImage = some out ∧
      out.result = image_init_result.PASS ∧
      out.trace = headerTrace ++ copyTrace 0x1500 (min sampleImage.length 0x17e0 - 0x1500)
                     ++ copyTrace 0x1800 (sampleImage.length - 0x1800) := by
  obtain ⟨ram', h', _⟩ := quickload_pass { videoram := zeroRam, pc := 0 } sampleImage
    zeroRam_length (by rw [sampleImage_length]; decide) (by rw [sampleImage_length]; decide)
    sampleImage_header.1
    (by rw [sampleImage_length, sampleImage_header.2.1, sampleImage_header.2.2]; decide)
  exact ⟨_, h', rfl, rfl⟩

/-! ## Quickload: the claims -/

/-- C3: whatever the image, after the quickload (passed or failed) the
reserved system area 0x17E0-0x17FF, RAM offsets 0x7E0..0x7FF, holds exactly the
bytes it held before, and none of these offsets has been written. -/
theorem quickload_reserved_area (st : State) (image : List Nat)
    (hram : st.videoram.length = VIDEORAM_SIZE) :
    ∃ out, quickload st image = some out ∧
      (∀ o, 0x7e0 ≤ o → o < 0x800 → out.videoram[o]? = st.videoram[o]?) ∧
      (∀ o, 0x7e0 ≤ o → o < 0x800 → Access.ramWrite o ∉ out.trace) := by
  rcases quickload_cases st image hram with ⟨e, tr, h, htr, _, _⟩ | ⟨h1, h2, _, _, ram', h, _, hp⟩
  · refine ⟨_, h, fun o _ _ => rfl, ?_⟩
    intro o _ _ ho
    obtain ⟨i, hi, _⟩ := htr _ ho
    cases hi
  · refine ⟨_, h, ?_, ?_⟩
    · intro o ho1 ho2
      have c : ¬ ((0x1500 ≤ o + 0x1000 ∧ o + 0x1000 < min image.length 0x17e0)
          ∨ (0x1800 ≤ o + 0x1000 ∧ o + 0x1000 < image.length)) := by omega
      simp only []
      rw [hp o, if_neg c]
    · intro o ho1 ho2 ho
      simp only [List.mem_append, mem_headerTrace, mem_copyTrace] at ho
      rcases ho with (hh | ⟨j, hj1, hj2, hj⟩) | ⟨j, hj1, hj2, hj⟩
      · rcases hh with hh | hh | hh <;> cases hh
      · rcases hj with hj | hj
        · cases hj
        · injection hj with hj; omega
      · rcases hj with hj | hj
        · cases hj
        · injection hj with hj; omega

/-- Witness for C3: an image of the maximal length 0x8000, whose bytes span
0x17E0..0x17FF, leaves RAM offsets 0x7E0..0x7FF untouched. -/
theorem quickload_reserved_area_witness :
    ∃ out, quickload { videoram := zeroRam, pc := 0 }
        (0x40 :: 0x15 :: 0x00 :: List.replicate 0x7ffd 0xff) = some out ∧
      (∀ o, 0x7e0 ≤ o → o < 0x800 → out.videoram[o]? = zeroRam[o]?) ∧
      (∀ o, 0x7e0 ≤ o → o < 0x800 → Access.ramWrite o ∉ out.trace) :=
  quickload_reserved_area { videoram := zeroRam, pc := 0 }
    (0x40 :: 0x15 :: 0x00 :: List.replicate 0x7ffd 0xff) zeroRam_length


theorem VIDEORAM_SIZE_eq : VIDEORAM_SIZE = 0x7000 := rfl

theorem CHARGEN_SIZE_eq : CHARGEN_SIZE = 0x600 := rfl

theorem cell_agree (v v' chargen : List Nat) (h : ∀ o, o < 0x500 → v[o]? = v'[o]?)
    (y ra x : Nat) (hy : y < 16) (hx : x < 80) :
    cell v chargen 0 y ra x = cell v' chargen 0 y ra x := by
  unfold cell
  rw [memAddr_eq y x hy hx]
  dsimp only
  rw [h (y + 16 * x) (by omega)]

theorem screen_update_agree (v v' chargen : List Nat) (h : ∀ o, o < 0x500 → v[o]? = v'[o]?) :
    screen_update v chargen = screen_update v' chargen := by
  unfold screen_update
  dsimp only
  apply forLoop_congr
  intro y _ hy
  unfold textLine
  apply forLoop_congr
  intro ra _ _
  unfold scanline
  rw [forLoop_congr _ _ 80 0
    (fun x _ hx => cell_agree v v' chargen h y ra x (by omega) (by omega))]

theorem gfxAt_glyph (videoram chargen : List Nat) (hv : 0x500 ≤ videoram.length)
    (hc : 0x200 ≤ chargen.length) (y ra x : Nat) (hy : y < 16) (hx : x < 80) (hra : ra < 8) :
    ∃ v g, videoram[y + 16 * x]? = some v ∧
      chargen[(perm (v &&& 0x3f) <<< 3) ||| ra]? = some g ∧
      gfxAt videoram chargen y ra x = g := by
  have hm : y + 16 * x < videoram.length := by omega
  have hg := glyphAddr_lt (videoram.getD (y + 16 * x) 0) ra hra
  have hg' : glyphAddr (videoram.getD (y + 16 * x) 0 &&& 0x3f) ra < chargen.length := by omega
  refine ⟨_, _, getElem?_eq_some_getD videoram _ hm, getElem?_eq_some_getD chargen _ hg', ?_⟩
  simp only [gfxAt, if_pos hra, glyphAddr]

/-- C5: the screen update writes a bitmap of exactly 192 rows of 640 pixels;
the pixel at row 12*y + ra, column 8*x + b is 0 on the padding scanlines
(ra >= 8), and otherwise is bit (7 - b) of
chargen[(perm(videoram[mem] & 0x3F) << 3) | ra], where mem = y + 16*x, reduced
by 0x500 if it exceeds 0x4FF. -/
theorem screen_update_bitmap (videoram chargen : List Nat)
    (hv : videoram.length = VIDEORAM_SIZE) (hc : chargen.length = CHARGEN_SIZE) :
    ∃ bitmap tr, screen_update videoram chargen = some (bitmap, tr) ∧
      bitmap.length = 192 ∧ (∀ row ∈ bitmap, row.length = 640) ∧
      ∀ y ra x b, y < 16 → ra < 12 → x < 80 → b < 8 →
        (8 ≤ ra → pixelAt bitmap (12 * y + ra) (8 * x + b) = some 0) ∧
        (ra < 8 → ∃ v g,
          videoram[if y + 16 * x > 0x4ff then y + 16 * x - 0x500 else y + 16 * x]? = some v ∧
          chargen[(perm (v &&& 0x3f) <<< 3) ||| ra]? = some g ∧
          pixelAt bitmap (12 * y + ra) (8 * x + b) = some (g / 2 ^ (7 - b) % 2)) := by
  rw [VIDEORAM_SIZE_eq] at hv
  rw [CHARGEN_SIZE_eq] at hc
  refine ⟨_, _, screen_update_eq videoram chargen (by omega) (by omega),
    bitmapOf_length videoram chargen, bitmapOf_row_length videoram chargen, ?_⟩
  intro y ra x b hy hra hx hb
  rw [bitmapOf_pixel videoram chargen y ra x b hy hra hx hb]
  constructor
  · intro h8
    have : ¬ ra < 8 := by omega
    simp only [gfxAt, if_neg this, BIT_eq, Nat.zero_div, Nat.zero_mod]
  · intro h8
    obtain ⟨v, g, e1, e2, e3⟩ :=
      gfxAt_glyph videoram chargen (by omega) (by omega) y ra x hy hx h8
    have hm : ¬ (y + 16 * x > 0x4ff) := by omega
    refine ⟨v, g, by rw [if_neg hm]; exact e1, e2, ?_⟩
    rw [e3, BIT_eq]

/-- Witness for C5: the all-zero RAM and character generator. -/
theorem screen_update_bitmap_witness :
    ∃ bitmap tr, screen_update zeroRam zeroChargen = some (bitmap, tr) ∧
      bitmap.length = 192 ∧ (∀ row ∈ bitmap, row.length = 640) ∧
      ∀ y ra x b, y < 16 → ra < 12 → x < 80 → b < 8 →
        (8 ≤ ra → pixelAt bitmap (12 * y + ra) (8 * x + b) = some 0) ∧
        (ra < 8 → ∃ v g,
          zeroRam[if y + 16 * x > 0x4ff then y + 16 * x - 0x500 else y + 16 * x]? = some v ∧
          zeroChargen[(perm (v &&& 0x3f) <<< 3) ||| ra]? = some g ∧
          pixelAt bitmap (12 * y + ra) (8 * x + b) = some (g / 2 ^ (7 - b) % 2)) :=
  screen_update_bitmap zeroRam zeroChargen zeroRam_length zeroChargen_length

/-- C9: with an all-zero character generator, whatever the RAM holds, every
one of the 192 x 640 pixels written by the screen update is 0. -/
theorem screen_update_blank (videoram chargen : List Nat)
    (hv : videoram.length = VIDEORAM_SIZE) (hc : chargen.length = CHARGEN_SIZE)
    (hz : ∀ g ∈ chargen, g = 0) :
    ∃ tr, screen_update videoram chargen
      = some (List.replicate 192 (List.replicate 640 0), tr) := by
  rw [VIDEORAM_SIZE_eq] at hv
  rw [CHARGEN_SIZE_eq] at hc
  refine ⟨traceOf videoram, ?_⟩
  rw [screen_update_eq videoram chargen (by omega) (by omega)]
  have hg : ∀ y ra x, gfxAt videoram chargen y ra x = 0 := by
    intro y ra x
    unfold gfxAt
    split
    · rw [List.getD_eq_getElem?_getD]
      cases hq : chargen[glyphAddr (videoram.getD (y + 16 * x) 0 &&& 0x3f) ra]? with
      | none => rfl
      | some g => exact hz g (List.getElem?_mem hq)
    · rfl
  have hb : bitmapOf videoram chargen = List.replicate 192 (List.replicate 640 0) := by
    rw [List.eq_replicate_iff]
    refine ⟨bitmapOf_length videoram chargen, ?_⟩
    intro row hrow
    rw [List.eq_replicate_iff]
    refine ⟨bitmapOf_row_length videoram chargen row hrow, ?_⟩
    intro p hp
    simp only [bitmapOf, List.mem_flatMap, List.mem_singleton] at hrow
    obtain ⟨y, _, ra, _, rfl⟩ := hrow
    simp only [List.mem_flatMap] at hp
    obtain ⟨x, _, hp⟩ := hp
    rw [hg y ra x] at hp
    simp only [pixels, BIT_eq, Nat.zero_div, Nat.zero_mod, List.mem_cons, List.mem_singleton,
      List.not_mem_nil, or_false, or_self] at hp
    exact hp
  rw [hb]

/-- Witness for C9: the all-zero RAM and the all-zero character generator. -/
theorem screen_update_blank_witness :
    ∃ tr, screen_update zeroRam zeroChargen
      = some (List.replicate 192 (List.replicate 640 0), tr) :=
  screen_update_blank zeroRam zeroChargen zeroRam_length zeroChargen_length
    (fun _ hg => List.eq_of_mem_replicate hg)


theorem markerChargen_length : markerChargen.length = CHARGEN_SIZE := by
  rw [markerChargen, List.length_set, zeroChargen_length]

theorem zeroRam_getElem? (o : Nat) (h : o < 0x7000) : zeroRam[o]? = some 0 := by
  rw [zeroRam, List.getElem?_replicate, if_pos (by rw [VIDEORAM_SIZE_eq]; exact h)]

theorem zeroChargen_getElem? (o : Nat) (h : o < 0x600) : zeroChargen[o]? = some 0 := by
  rw [zeroChargen, List.getElem?_replicate, if_pos (by rw [CHARGEN_SIZE_eq]; exact h)]

theorem gfxAt_marker_0x500 : gfxAt (zeroRam.set 0x500 1) markerChargen 0 0 0 = 0 := by
  have e1 : (zeroRam.set 0x500 1).getD (0 + 16 * 0) 0 = 0 := by
    rw [List.getD_eq_getElem?_getD, List.getElem?_set_ne (by decide),
      zeroRam_getElem? _ (by decide)]
    rfl
  have e2 : glyphAddr (0 &&& 0x3f) 0 = 0 := by decide
  have e3 : markerChargen.getD 0 0 = 0 := by
    rw [List.getD_eq_getElem?_getD, markerChargen, List.getElem?_set_ne (by decide),
      zeroChargen_getElem? _ (by decide)]
    rfl
  rw [gfxAt, if_pos (by decide), e1, e2, e3]

theorem gfxAt_marker_0x000 : gfxAt (zeroRam.set 0 1) markerChargen 0 0 0 = 0x80 := by
  have hl : 0 < zeroRam.length := by rw [zeroRam_length, VIDEORAM_SIZE_eq]; decide
  have hc : 64 < zeroChargen.length := by rw [zeroChargen_length, CHARGEN_SIZE_eq]; decide
  have e1 : (zeroRam.set 0 1).getD (0 + 16 * 0) 0 = 1 := by
    rw [List.getD_eq_getElem?_getD]
    show ((zeroRam.set 0 1)[0]?).getD 0 = 1
    rw [List.getElem?_set, if_pos rfl, if_pos hl]
    rfl
  have e2 : glyphAddr (1 &&& 0x3f) 0 = 64 := by decide
  have e3 : markerChargen.getD 64 0 = 0x80 := by
    rw [List.getD_eq_getElem?_getD, markerChargen, List.getElem?_set, if_pos rfl, if_pos hc]
    rfl
  rw [gfxAt, if_pos (by decide), e1, e2, e3]

/-- C6, counterexample: on the all-zero RAM, with a character generator whose
only non-zero byte is the top scanline of the glyph of character 0x01, the
marker 0x01 written at offset 0x500 is not displayed (pixel (0,0) is 0), while
written at offset 0x000 it is (pixel (0,0) is 1): the two bitmaps differ. -/
theorem screen_update_wrap_counterexample :
    ¬ ((screen_update (zeroRam.set 0x500 1) markerChargen).map Prod.fst
        = (screen_update (zeroRam.set 0 1) markerChargen).map Prod.fst) := by
  have hl : ∀ o c, 0x500 ≤ (zeroRam.set o c).length := by
    intro o c
    rw [List.length_set, zeroRam_length, VIDEORAM_SIZE_eq]
    decide
  have hc : 0x200 ≤ markerChargen.length := by
    rw [markerChargen_length, CHARGEN_SIZE_eq]
    decide
  rw [screen_update_eq _ _ (hl _ _) hc, screen_update_eq _ _ (hl _ _) hc]
  simp only [Option.map_some']
  intro h
  have hb : bitmapOf (zeroRam.set 0x500 1) markerChargen
      = bitmapOf (zeroRam.set 0 1) markerChargen := Option.some.inj h
  have p1 := bitmapOf_pixel (zeroRam.set 0x500 1) markerChargen 0 0 0 0
    (by decide) (by decide) (by decide) (by decide)
  have p2 := bitmapOf_pixel (zeroRam.set 0 1) markerChargen 0 0 0 0
    (by decide) (by decide) (by decide) (by decide)
  rw [hb, p2, gfxAt_marker_0x500, gfxAt_marker_0x000] at p1
  revert p1
  decide

/-- C6, amended: the wrap step of the address computation maps a pre-wrap
address 0x500 + k to k, but with the scroll offset fixed at 0 the address
y + 16*x never exceeds 0x4FF, so the step is never taken and RAM offset 0x500
is never read: rendering a RAM with a character written at offset 0x500 gives
the same bitmap as rendering the RAM itself, whereas a character written at
offset 0x000 is displayed in the top-left cell (rows 0..7, columns 0..7 show
its glyph). -/
theorem screen_update_offset_0x500 (v chargen : List Nat) (c : Nat)
    (hv : v.length = VIDEORAM_SIZE) (hc : chargen.length = CHARGEN_SIZE) :
    (∀ y x, y < 16 → x < 80 → memAddr 0 y x = y + 16 * x ∧ memAddr 0 y x ≤ 0x4ff ∧
      memAddr 0x500 y x = memAddr 0 y x) ∧
    screen_update (v.set 0x500 c) chargen = screen_update v chargen ∧
    ∃ bitmap tr, screen_update (v.set 0 c) chargen = some (bitmap, tr) ∧
      ∀ ra b, ra < 8 → b < 8 → ∃ g,
        chargen[(perm (c &&& 0x3f) <<< 3) ||| ra]? = some g ∧
        pixelAt bitmap ra b = some (g / 2 ^ (7 - b) % 2) := by
  rw [VIDEORAM_SIZE_eq] at hv
  rw [CHARGEN_SIZE_eq] at hc
  refine ⟨?_, ?_, ?_⟩
  · intro y x hy hx
    refine ⟨memAddr_eq y x hy hx, by rw [memAddr_eq y x hy hx]; omega, ?_⟩
    rw [memAddr_eq y x hy hx]
    exact memAddr_wrap y x hy hx
  · apply screen_update_agree
    intro o ho
    exact List.getElem?_set_ne (by omega)
  · have hl : (v.set 0 c).length = 0x7000 := by rw [List.length_set, hv]
    refine ⟨_, _, screen_update_eq (v.set 0 c) chargen (by omega) (by omega), ?_⟩
    intro ra b hra hb
    obtain ⟨w, g, e1, e2, e3⟩ :=
      gfxAt_glyph (v.set 0 c) chargen (by omega) (by omega) 0 ra 0 (by decide) (by decide) hra
    have hw : w = c := by
      have : (v.set 0 c)[0]? = some c := by
        rw [List.getElem?_set, if_pos rfl, if_pos (by omega)]
      have e1' : (v.set 0 c)[0]? = some w := e1
      rw [this] at e1'
      exact (Option.some.inj e1').symm
    rw [hw] at e2
    refine ⟨g, e2, ?_⟩
    have p := bitmapOf_pixel (v.set 0 c) chargen 0 ra 0 b (by decide) (by omega) (by decide) hb
    simp only [Nat.mul_zero, Nat.zero_add] at p
    rw [p, e3, BIT_eq]

/-- Witness for C6 (amended): the all-zero RAM and character generator, with
marker character 0x01. -/
theorem screen_update_offset_0x500_witness :
    (∀ y x, y < 16 → x < 80 → memAddr 0 y x = y + 16 * x ∧ memAddr 0 y x ≤ 0x4ff ∧
      memAddr 0x500 y x = memAddr 0 y x) ∧
    screen_update (zeroRam.set 0x500 1) zeroChargen = screen_update zeroRam zeroChargen ∧
    ∃ bitmap tr, screen_update (zeroRam.set 0 1) zeroChargen = some (bitmap, tr) ∧
      ∀ ra b, ra < 8 → b < 8 → ∃ g,
        zeroChargen[(perm (1 &&& 0x3f) <<< 3) ||| ra]? = some g ∧
        pixelAt bitmap ra b = some (g / 2 ^ (7 - b) % 2) :=
  screen_update_offset_0x500 zeroRam zeroChargen 1 zeroRam_length zeroChargen_length


theorem quickload_trace (st : State) (image : List Nat)
    (hram : st.videoram.length = VIDEORAM_SIZE) :
    ∃ out, quickload st image = some out ∧
      ∀ a ∈ out.trace,
        (∃ i, a = Access.imageRead i ∧ i < image.length) ∨
        (∃ i, a = Access.ramWrite (i - 0x1000) ∧ 0x1500 ≤ i ∧ i < image.length ∧
          i ≤ 0x7fff ∧ ¬ (0x17e0 ≤ i ∧ i < 0x1800)) := by
  rcases quickload_cases st image hram with ⟨e, tr, h, htr, _, _⟩ | ⟨h1, h2, _, _, ram', h, _, _⟩
  · exact ⟨_, h, fun a ha => Or.inl (htr a ha)⟩
  · refine ⟨_, h, ?_⟩
    intro a ha
    simp only [List.mem_append, mem_headerTrace, mem_copyTrace] at ha
    rcases ha with (hh | ⟨j, hj1, hj2, hj⟩) | ⟨j, hj1, hj2, hj⟩
    · rcases hh with hh | hh | hh
      · exact Or.inl ⟨0, hh, by omega⟩
      · exact Or.inl ⟨1, hh, by omega⟩
      · exact Or.inl ⟨2, hh, by omega⟩
    · rcases hj with hj | hj
      · exact Or.inl ⟨j, hj, by omega⟩
      · exact Or.inr ⟨j, hj, by omega, by omega, by omega, by omega⟩
    · rcases hj with hj | hj
      · exact Or.inl ⟨j, hj, by omega⟩
      · exact Or.inr ⟨j, hj, by omega, by omega, by omega, by omega⟩

/-- C8, counterexample: loading the sample image (0x1600 bytes) writes RAM
offset 0x500, which is not below 0x500. -/
theorem access_wrapped_counterexample :
    ¬ (∀ out, quickload { videoram := zeroRam, pc := 0 } sampleImage = some out →
        ∀ o, Access.ramWrite o ∈ out.trace → o < 0x500) := by
  intro hall
  obtain ⟨out, h, _, htr⟩ := sampleImage_pass
  have hmem : Access.ramWrite 0x500 ∈ out.trace := by
    rw [htr, sampleImage_length]
    simp only [List.mem_append, mem_copyTrace]
    exact Or.inl (Or.inr ⟨0x1500, by decide, by decide, Or.inr rfl⟩)
  exact absurd (hall out h 0x500 hmem) (by decide)

/-- C8, amended: every RAM offset the screen update reads is y + 16*x for a
position y < 16, x < 80, hence below 0x500 (and every such offset is read);
every RAM offset the quickload writes is (image index - 0x1000) for a copied
index between 0x1500 and the image length, hence lies in [0x500, 0x7000): it is
not wrapped. -/
theorem access_offsets (st : State) (image videoram chargen : List Nat)
    (hram : st.videoram.length = VIDEORAM_SIZE)
    (hv : videoram.length = VIDEORAM_SIZE) (hc : chargen.length = CHARGEN_SIZE) :
    (∃ out, quickload st image = some out ∧
      ∀ o, Access.ramWrite o ∈ out.trace →
        0x500 ≤ o ∧ o < 0x7000 ∧ ∃ i, 0x1500 ≤ i ∧ i < image.length ∧ o = i - 0x1000) ∧
    (∃ bitmap tr, screen_update videoram chargen = some (bitmap, tr) ∧
      (∀ o, Access.ramRead o ∈ tr → o < 0x500 ∧ ∃ y x, y < 16 ∧ x < 80 ∧ o = y + 16 * x) ∧
      (∀ y x, y < 16 → x < 80 → Access.ramRead (y + 16 * x) ∈ tr)) := by
  rw [VIDEORAM_SIZE_eq] at hv
  rw [CHARGEN_SIZE_eq] at hc
  constructor
  · obtain ⟨out, h, htr⟩ := quickload_trace st image hram
    refine ⟨out, h, ?_⟩
    intro o ho
    rcases htr _ ho with ⟨i, hi, _⟩ | ⟨i, hi, h1, h2, h3, _⟩
    · cases hi
    · injection hi with hi
      exact ⟨by omega, by omega, i, h1, h2, hi⟩
  · refine ⟨_, _, screen_update_eq videoram chargen (by omega) (by omega), ?_, ?_⟩
    · intro o ho
      obtain ⟨y, ra, x, hy, _, hx, h | h⟩ := (mem_traceOf videoram _).mp ho
      · injection h with h
        exact ⟨by omega, y, x, hy, hx, h⟩
      · cases h
    · intro y x hy hx
      exact (mem_traceOf videoram _).mpr ⟨y, 0, x, hy, by decide, hx, Or.inl rfl⟩

/-- Witness for C8 (amended): the sample image loaded into the all-zero RAM,
and the all-zero RAM rendered with the all-zero character generator. -/
theorem access_offsets_witness :
    (∃ out, quickload { videoram := zeroRam, pc := 0 } sampleImage = some out ∧
      ∀ o, Access.ramWrite o ∈ out.trace →
        0x500 ≤ o ∧ o < 0x7000 ∧ ∃ i, 0x1500 ≤ i ∧ i < sampleImage.length ∧ o = i - 0x1000) ∧
    (∃ bitmap tr, screen_update zeroRam zeroChargen = some (bitmap, tr) ∧
      (∀ o, Access.ramRead o ∈ tr → o < 0x500 ∧ ∃ y x, y < 16 ∧ x < 80 ∧ o = y + 16 * x) ∧
      (∀ y x, y < 16 → x < 80 → Access.ramRead (y + 16 * x) ∈ tr)) :=
  access_offsets { videoram := zeroRam, pc := 0 } sampleImage zeroRam zeroChargen
    zeroRam_length zeroRam_length zeroChargen_length

/-- C10: with the RAM of 0x7000 bytes and the character generator of 0x600
bytes of the machine, the quickload and the screen update complete without an
out-of-range index: the quickload only reads image positions below the image
length and only writes RAM offsets in [0x500, 0x7000); the screen update only
reads RAM offsets below 0x500 and character generator indices below 0x200. -/
theorem no_out_of_bounds (st : State) (image videoram chargen : List Nat)
    (hram : st.videoram.length = VIDEORAM_SIZE)
    (hv : videoram.length = VIDEORAM_SIZE) (hc : chargen.length = CHARGEN_SIZE) :
    (∃ out, quickload st image = some out ∧
      ∀ a ∈ out.trace,
        match a with
        | Access.imageRead i => i < image.length
        | Access.ramWrite o => 0x500 ≤ o ∧ o < VIDEORAM_SIZE
        | Access.ramRead _ => False
        | Access.chargenRead _ => False) ∧
    (∃ bitmap tr, screen_update videoram chargen = some (bitmap, tr) ∧
      ∀ a ∈ tr,
        match a with
        | Access.ramRead o => o < 0x500 ∧ o < VIDEORAM_SIZE
        | Access.chargenRead i => i < 0x200 ∧ i < CHARGEN_SIZE
        | Access.imageRead _ => False
        | Access.ramWrite _ => False) := by
  rw [VIDEORAM_SIZE_eq] at hv
  rw [CHARGEN_SIZE_eq] at hc
  constructor
  · obtain ⟨out, h, htr⟩ := quickload_trace st image hram
    refine ⟨out, h, ?_⟩
    intro a ha
    rcases htr a ha with ⟨i, hi, h1⟩ | ⟨i, hi, h1, h2, h3, _⟩
    · rw [hi]
      exact h1
    · rw [hi, VIDEORAM_SIZE_eq]
      exact ⟨by omega, by omega⟩
  · refine ⟨_, _, screen_update_eq videoram chargen (by omega) (by omega), ?_⟩
    intro a ha
    obtain ⟨y, ra, x, hy, hra, hx, h | h⟩ := (mem_traceOf videoram _).mp ha
    · rw [h, VIDEORAM_SIZE_eq]
      exact ⟨by omega, by omega⟩
    · rw [h, CHARGEN_SIZE_eq]
      have := glyphAddr_lt (videoram.getD (y + 16 * x) 0) ra hra
      exact ⟨this, by omega⟩

/-- Witness for C10: the sample image loaded into the all-zero RAM, and the
all-zero RAM rendered with the all-zero character generator. -/
theorem no_out_of_bounds_witness :
    (∃ out, quickload { videoram := zeroRam, pc := 0 } sampleImage = some out ∧
      ∀ a ∈ out.trace,
        match a with
        | Access.imageRead i => i < sampleImage.length
        | Access.ramWrite o => 0x500 ≤ o ∧ o < VIDEORAM_SIZE
        | Access.ramRead _ => False
        | Access.chargenRead _ => False) ∧
    (∃ bitmap tr, screen_update zeroRam zeroChargen = some (bitmap, tr) ∧
      ∀ a ∈ tr,
        match a with
        | Access.ramRead o => o < 0x500 ∧ o < VIDEORAM_SIZE
        | Access.chargenRead i => i < 0x200 ∧ i < CHARGEN_SIZE
        | Access.imageRead _ => False
        | Access.ramWrite _ => False) :=
  no_out_of_bounds { videoram := zeroRam, pc := 0 } sampleImage zeroRam zeroChargen
    zeroRam_length zeroRam_length zeroChargen_length

end Cd2650
